import Mathlib

/-!
Shallow embedding of the `hit` repository: `src/repo.rs` (repository lifecycle
controller) and `src/submodule.rs` (submodule controller).

The external collaborators (the `Git` subprocess-invocation primitive, the
filesystem probes `is_dir`, `create_dir_all`, and the manifest/config text
reads) are not part of the two source files; the spec treats them as consumed
primitives.  They are modelled by an explicit environment record that supplies
the outcome of each potential external call, and every embedded operation
returns, next to its Rust result, the trace of external calls it performed, in
order.  This makes "no network access", call ordering and halt-at-first-failure
properties statable.
-/

namespace Hit

/-- Diagnostic carried by a failed subprocess invocation (`bossy::Error`). -/
abbrev BossyError := String

/-- Diagnostic carried by a filesystem failure (`std::io::Error`). -/
abbrev IoError := String

/-- Model of `std::path::PathBuf` restricted to what the two source files use:
an absolute/relative flag, the list of normal components, and whether the path
is representable as UTF-8 (`Path::to_str` succeeds). -/
structure FsPath where
  absolute : Bool
  components : List String
  validUtf8 : Bool
deriving DecidableEq, Repr

/-- `Path::parent`: drop the final component; `None` when there is no
component to drop (the filesystem root, or the empty path). -/
def FsPath.parent (p : FsPath) : Option FsPath :=
  match p.components with
  | [] => none
  | _ :: _ => some { p with components := p.components.dropLast }

/-- `Path::file_name`: the final component, when present. -/
def FsPath.fileName (p : FsPath) : Option String :=
  p.components.getLast?

/-- `Path::join` with a second path: an absolute right operand replaces the
left one, otherwise the components are appended. -/
def FsPath.join (p q : FsPath) : FsPath :=
  if q.absolute then q
  else { absolute := p.absolute
         components := p.components ++ q.components
         validUtf8 := p.validUtf8 && q.validUtf8 }

/-- Textual rendering of a path, used when a path is passed to the tool as a
command-line argument. -/
def FsPath.render (p : FsPath) : String :=
  (if p.absolute then "/" else "") ++ String.intercalate "/" p.components

/-- `Path::to_str`: the rendering when the path is valid UTF-8, else `none`. -/
def FsPath.toStr (p : FsPath) : Option String :=
  if p.validUtf8 then some p.render else none

/-- One external call, as recorded in an operation's trace: a subprocess run
of the tool in a working directory with an argument list (with or without
capturing stdout), a recursive directory creation, or one of the two text
reads (`.gitmodules` / `.git/config`) of the parent repository. -/
inductive Call where
  | run (cwd : FsPath) (args : List String)
  | runOutput (cwd : FsPath) (args : List String)
  | createDirAll (p : FsPath)
  | readModules
  | readConfig
deriving DecidableEq, Repr

/-- `repo.rs` `Error`: one tagged variant per failure stage. -/
inductive Repo.Error where
  | FetchFailed (e : BossyError)
  | RevParseLocalFailed (e : BossyError)
  | RevParseRemoteFailed (e : BossyError)
  | LogFailed (e : BossyError)
  | ParentDirCreationFailed (path : FsPath) (source : IoError)
  | CloneFailed (e : BossyError)
  | ResetFailed (e : BossyError)
  | CleanFailed (e : BossyError)
deriving DecidableEq, Repr

/-- `repo.rs` `Status`. -/
inductive Status where
  | Stale
  | Fresh
deriving DecidableEq, Repr

/-- `Status::stale`. -/
def Status.stale : Status → Bool
  | .Stale => true
  | .Fresh => false

/-- Environment for the repository operations: the outcome each external call
would have, were it performed.  `isDir` answers `self.path().is_dir()`,
`parentIsDir` answers `parent.is_dir()`; the remaining fields give the result
of the corresponding subprocess invocation or directory creation. -/
structure RepoEnv where
  isDir : Bool
  parentIsDir : Bool
  fetchOrigin : Except BossyError Unit
  revParseHead : Except BossyError String
  revParseUpstream : Except BossyError String
  mkParentDir : Except IoError Unit
  cloneResult : Except BossyError Unit
  fetchDepth1 : Except BossyError Unit
  resetResult : Except BossyError Unit
  cleanResult : Except BossyError Unit
  logResult : Except BossyError String
deriving Repr

/-- `repo.rs` `Repo`: identified solely by a filesystem path. -/
structure Repo where
  path : FsPath
deriving DecidableEq, Repr

/-- `Repo::from_path`. -/
def Repo.from_path (p : FsPath) : Repo := { path := p }

/-- `Repo::status`: `Stale` when the path is not a directory; otherwise fetch
`origin`, read `rev-parse HEAD` and `rev-parse @{u}`, and compare the captured
outputs, each failure mapped to its own error variant. -/
def Repo.status (repo : Repo) (env : RepoEnv) :
    Except Repo.Error Status × List Call :=
  if env.isDir = false then (.ok .Stale, [])
  else
    let t1 := [Call.run repo.path ["fetch", "origin"]]
    match env.fetchOrigin with
    | .error e => (.error (.FetchFailed e), t1)
    | .ok _ =>
      let t2 := t1 ++ [Call.runOutput repo.path ["rev-parse", "HEAD"]]
      match env.revParseHead with
      | .error e => (.error (.RevParseLocalFailed e), t2)
      | .ok localRev =>
        let t3 := t2 ++ [Call.runOutput repo.path ["rev-parse", "@{u}"]]
        match env.revParseUpstream with
        | .error e => (.error (.RevParseRemoteFailed e), t3)
        | .ok remoteRev =>
          (.ok (if localRev ≠ remoteRev then .Stale else .Fresh), t3)

/-- `Repo::latest_commit`: `log -1 --pretty=<format>`, output trimmed. -/
def Repo.latest_commit (repo : Repo) (format : String) (env : RepoEnv) :
    Except Repo.Error String × List Call :=
  let t := [Call.runOutput repo.path ["log", "-1", "--pretty=" ++ format]]
  match env.logResult with
  | .error e => (.error (.LogFailed e), t)
  | .ok s => (.ok s.trim, t)

/-- `Repo::latest_subject`. -/
def Repo.latest_subject (repo : Repo) (env : RepoEnv) :
    Except Repo.Error String × List Call :=
  repo.latest_commit "%s" env

/-- `Repo::latest_body`. -/
def Repo.latest_body (repo : Repo) (env : RepoEnv) :
    Except Repo.Error String × List Call :=
  repo.latest_commit "%b" env

/-- Result of a Rust call that may panic (`expect`) instead of returning. -/
inductive PanicOr (α : Type) where
  | panicked (msg : String)
  | result (r : α)
deriving DecidableEq, Repr

/-- `Repo::update`: on an absent path, ensure the parent directory exists and
clone shallowly; on a present path, fetch (depth 1), hard-reset to
`origin/master`, then force-clean excluding `/target`, halting at the first
failing step.  The two `expect` calls of the source are modelled as panics. -/
def Repo.update (repo : Repo) (url : String) (env : RepoEnv) :
    PanicOr (Except Repo.Error Unit) × List Call :=
  if env.isDir = false then
    match repo.path.parent with
    | none => (.panicked "developer error: `Repo` path was at root", [])
    | some par =>
      let cloneStep : List Call → PanicOr (Except Repo.Error Unit) × List Call :=
        fun t =>
          let t2 := t ++ [Call.run par
            (["clone", "--depth", "1", "--single-branch", url]
              ++ [repo.path.render])]
          match env.cloneResult with
          | .error e => (.result (.error (.CloneFailed e)), t2)
          | .ok _ => (.result (.ok ()), t2)
      if env.parentIsDir = false then
        match env.mkParentDir with
        | .error e =>
          (.result (.error (.ParentDirCreationFailed par e)),
            [Call.createDirAll par])
        | .ok _ => cloneStep [Call.createDirAll par]
      else cloneStep []
  else
    match repo.path.fileName with
    | none => (.panicked "developer error: `Repo` path had no file name", [])
    | some _ =>
      let t1 := [Call.run repo.path ["fetch", "--depth", "1"]]
      match env.fetchDepth1 with
      | .error e => (.result (.error (.FetchFailed e)), t1)
      | .ok _ =>
        let t2 := t1 ++ [Call.run repo.path ["reset", "--hard", "origin/master"]]
        match env.resetResult with
        | .error e => (.result (.error (.ResetFailed e)), t2)
        | .ok _ =>
          let t3 := t2 ++
            [Call.run repo.path ["clean", "-dfx", "--exclude", "/target"]]
          match env.cleanResult with
          | .error e => (.result (.error (.CleanFailed e)), t3)
          | .ok _ => (.result (.ok ()), t3)

/-- A word character for the name-extraction pattern: the pattern uses word
characters (modelled over the alphanumerics and the underscore). -/
def isWordChar (c : Char) : Bool :=
  c.isAlphanum || c = '_'

/-- Split a character list into its longest leading run of word characters
and the remainder. -/
def wordRun : List Char → List Char × List Char
  | [] => ([], [])
  | c :: cs =>
    if isWordChar c then
      let p := wordRun cs
      (c :: p.1, p.2)
    else ([], c :: cs)

/-- Does `s` start with `pat` (as character lists)? -/
def charsStartWith : List Char → List Char → Bool
  | _, [] => true
  | [], _ :: _ => false
  | c :: cs, p :: ps => c = p && charsStartWith cs ps

/-- Does the character list start with the literal `.git`? -/
def startsDotGit (l : List Char) : Bool :=
  charsStartWith l ['.', 'g', 'i', 't']

/-- Leftmost match of the name-extraction pattern (a word-character run
immediately followed by the literal `.git`); the capture is the run.  This is
the regex `(?P<name>\w+)\.git` of `Submodule::name`: the engine scans for the
leftmost starting position, and since a word character cannot also begin the
literal `.git`, the repetition always consumes the full word run. -/
def findGitName : List Char → Option String
  | [] => none
  | c :: cs =>
    if isWordChar c then
      let p := wordRun cs
      if startsDotGit p.2 then some (String.mk (c :: p.1))
      else findGitName cs
    else findGitName cs

/-- Does `s` contain `pat` as a contiguous substring (as character lists)?
Models Rust `str::contains` with a literal pattern. -/
def charsContain (pat : List Char) : List Char → Bool
  | [] => charsStartWith [] pat
  | c :: cs => charsStartWith (c :: cs) pat || charsContain pat cs

/-- Rust `String::contains` with a literal string pattern. -/
def strContains (s pat : String) : Bool :=
  charsContain pat.data s.data

/-- `src/submodule.rs` `Source`: one tagged variant per submodule failure
stage. -/
inductive Submodule.Source where
  | NameMissing
  | IndexCheckFailed (e : IoError)
  | InitCheckFailed (e : IoError)
  | PathInvalidUtf8
  | AddFailed (e : BossyError)
  | InitFailed (e : BossyError)
  | CheckoutFailed (commit : String) (source : BossyError)
deriving DecidableEq, Repr

/-- `src/submodule.rs` `Submodule`: optional explicit name, required remote
and relative path. -/
structure Submodule where
  name : Option String
  remote : String
  path : FsPath
deriving DecidableEq, Repr

/-- `src/submodule.rs` `Error`: the failing stage together with the full
submodule descriptor. -/
structure Submodule.Error where
  submodule : Submodule
  source : Submodule.Source
deriving DecidableEq, Repr

/-- `Submodule::with_remote_and_path`. -/
def Submodule.with_remote_and_path (remote : String) (path : FsPath) :
    Submodule :=
  { name := none, remote := remote, path := path }

/-- `Submodule::name`: the explicit name when present, otherwise the name
derived (on every call, uncached) from the remote by the `\w+\.git`
pattern. -/
def Submodule.resolveName (s : Submodule) : Option String :=
  match s.name with
  | some n => some n
  | none => findGitName s.remote.data

/-- The bracketed section header text the controller looks for:
`format!("[submodule {:?}]", name)`. -/
def sectionHeader (name : String) : String :=
  "[submodule \"" ++ name ++ "\"]"

/-- Environment for `Submodule::init` against a parent repository: the text of
`.gitmodules` and `.git/config` when they exist (`modules` / `config`, an I/O
error, an absent file, or the content), the outcome of each subprocess
invocation, and the parent repository root (`git.root()`). -/
structure SubEnv where
  modules : Except IoError (Option String)
  config : Except IoError (Option String)
  addResult : Except BossyError Unit
  subUpdateResult : Except BossyError Unit
  checkoutResult : Except BossyError Unit
  root : FsPath
deriving Repr

/-- `Submodule::in_index`: the manifest exists and contains the bracketed
section header for this name. -/
def Submodule.in_index (_s : Submodule) (env : SubEnv) (name : String) :
    Except IoError Bool :=
  match env.modules with
  | .error e => .error e
  | .ok m =>
    .ok (match m with
      | some text => strContains text (sectionHeader name)
      | none => false)

/-- `Submodule::initialized`: the local config exists and contains the
bracketed section header for this name. -/
def Submodule.initialized (_s : Submodule) (env : SubEnv) (name : String) :
    Except IoError Bool :=
  match env.config with
  | .error e => .error e
  | .ok c =>
    .ok (match c with
      | some text => strContains text (sectionHeader name)
      | none => false)

/-- `Submodule::init`: resolve the name, query the manifest; if unregistered,
check the path encoding and run `submodule add` (treating the result as
registered-uninitialized without re-querying), else query the local config;
if uninitialized, run `submodule update --init --recursive`; finally, when a
commit is pinned, check it out inside the submodule working directory
(`git.root().join(path)`). -/
def Submodule.init (s : Submodule) (env : SubEnv) (commit : Option String) :
    Except Submodule.Error Unit × List Call :=
  match s.resolveName with
  | none => (.error ⟨s, .NameMissing⟩, [])
  | some name =>
    let t1 := [Call.readModules]
    match s.in_index env name with
    | .error e => (.error ⟨s, .IndexCheckFailed e⟩, t1)
    | .ok inIdx =>
      let afterInitState :
          Bool → List Call → Except Submodule.Error Unit × List Call :=
        fun initialized t =>
          let afterUpdate :
              List Call → Except Submodule.Error Unit × List Call :=
            fun t =>
              match commit with
              | none => (.ok (), t)
              | some c =>
                let wd := env.root.join s.path
                let t4 := t ++ [Call.run wd ["checkout", c]]
                match env.checkoutResult with
                | .error e => (.error ⟨s, .CheckoutFailed c e⟩, t4)
                | .ok _ => (.ok (), t4)
          if initialized = false then
            let t3 := t ++ [Call.run env.root
              ["submodule", "update", "--init", "--recursive"]]
            match env.subUpdateResult with
            | .error e => (.error ⟨s, .InitFailed e⟩, t3)
            | .ok _ => afterUpdate t3
          else afterUpdate t
      if inIdx = false then
        match s.path.toStr with
        | none => (.error ⟨s, .PathInvalidUtf8⟩, t1)
        | some pathStr =>
          let t2 := t1 ++ [Call.run env.root
            ["submodule", "add", "--name", name, s.remote, pathStr]]
          match env.addResult with
          | .error e => (.error ⟨s, .AddFailed e⟩, t2)
          | .ok _ => afterInitState false t2
      else
        let t2 := t1 ++ [Call.readConfig]
        match s.initialized env name with
        | .error e => (.error ⟨s, .InitCheckFailed e⟩, t2)
        | .ok b => afterInitState b t2


/-- The `clone --depth 1 --single-branch <url> <path>` invocation run in the
parent directory. -/
def cloneCall (par : FsPath) (url : String) (target : FsPath) : Call :=
  .run par ["clone", "--depth", "1", "--single-branch", url, target.render]

/-- The `fetch --depth 1` invocation of `Repo::update`. -/
def fetchCall (p : FsPath) : Call :=
  .run p ["fetch", "--depth", "1"]

/-- The `reset --hard origin/master` invocation of `Repo::update`. -/
def resetCall (p : FsPath) : Call :=
  .run p ["reset", "--hard", "origin/master"]

/-- The `clean -dfx --exclude /target` invocation of `Repo::update`. -/
def cleanCall (p : FsPath) : Call :=
  .run p ["clean", "-dfx", "--exclude", "/target"]

/-- The `submodule add --name <name> <remote> <path>` invocation of
`Submodule::init`, run at the parent repository root. -/
def addCall (root : FsPath) (name remote pathStr : String) : Call :=
  .run root ["submodule", "add", "--name", name, remote, pathStr]

/-- The `submodule update --init --recursive` invocation of
`Submodule::init`. -/
def subUpdateCall (root : FsPath) : Call :=
  .run root ["submodule", "update", "--init", "--recursive"]

/-- The `checkout <commit>` invocation of `Submodule::init`, run inside the
submodule working directory. -/
def checkoutCall (wd : FsPath) (c : String) : Call :=
  .run wd ["checkout", c]

/-- Is this call a `submodule add` registration? -/
def Call.isSubmoduleAdd : Call → Bool
  | .run _ ("submodule" :: "add" :: _) => true
  | _ => false

/-- Is this call a `checkout`? -/
def Call.isCheckout : Call → Bool
  | .run _ ("checkout" :: _) => true
  | _ => false

/-- The fifteen failure stages named by the spec's error taxonomy. -/
inductive Stage where
  | fetch
  | localRev
  | upstreamRev
  | log
  | parentDir
  | clone
  | reset
  | clean
  | nameMissing
  | manifestQuery
  | configQuery
  | pathEncoding
  | add
  | recursiveInit
  | checkout
deriving DecidableEq, Repr

/-- The failure stage identified by each repository error variant. -/
def Repo.Error.stage : Repo.Error → Stage
  | .FetchFailed _ => .fetch
  | .RevParseLocalFailed _ => .localRev
  | .RevParseRemoteFailed _ => .upstreamRev
  | .LogFailed _ => .log
  | .ParentDirCreationFailed _ _ => .parentDir
  | .CloneFailed _ => .clone
  | .ResetFailed _ => .reset
  | .CleanFailed _ => .clean

/-- The failure stage identified by each submodule error variant. -/
def Submodule.Source.stage : Submodule.Source → Stage
  | .NameMissing => .nameMissing
  | .IndexCheckFailed _ => .manifestQuery
  | .InitCheckFailed _ => .configQuery
  | .PathInvalidUtf8 => .pathEncoding
  | .AddFailed _ => .add
  | .InitFailed _ => .recursiveInit
  | .CheckoutFailed _ _ => .checkout

/-- The exclusion patterns of a clean invocation: every argument that follows
an `--exclude` flag. -/
def collectExcludes : List String → List String
  | [] => []
  | a :: rest =>
    if a = "--exclude" then
      match rest with
      | [] => []
      | p :: rest2 => p :: collectExcludes rest2
    else collectExcludes rest

/-- Modelled from the spec: the semantics of the external tool's forced
recursive clean, which is not part of the two source files.  An untracked
top-level entry is removed unless an exclusion pattern matches it; a pattern
of the form `/name` matches exactly the top-level entry `name`. -/
def cleanRemovesRootEntry (args : List String) (entry : String) : Bool :=
  !(collectExcludes args).contains ("/" ++ entry)

/-- Split a character list at every `/`, keeping empty segments. -/
def splitOnSlash : List Char → List (List Char)
  | [] => [[]]
  | c :: cs =>
    let r := splitOnSlash cs
    if c = '/' then [] :: r
    else
      match r with
      | [] => [[c]]
      | seg :: rest => (c :: seg) :: rest

/-- The name derivation exactly as the claim words it: the final path segment
of the remote immediately preceding a trailing `.git` suffix, and no name at
all when the remote has no trailing `.git` suffix. -/
def specTrailingSegmentName (remote : String) : Option String :=
  let cs := remote.data
  if charsStartWith cs.reverse ['t', 'i', 'g', '.'] then
    let core := cs.take (cs.length - 4)
    match (splitOnSlash core).getLast? with
    | some seg => if seg.isEmpty then none else some (String.mk seg)
    | none => none
  else none

/-- Fixture: an ordinary absolute repository path. -/
def samplePath : FsPath :=
  { absolute := true, components := ["home", "user", "repo"], validUtf8 := true }

/-- Fixture: the filesystem root (no parent, no file name). -/
def degeneratePath : FsPath :=
  { absolute := true, components := [], validUtf8 := true }

/-- Fixture: the relative path of a submodule. -/
def vendorPath : FsPath :=
  { absolute := false, components := ["vendor", "dep"], validUtf8 := true }

/-- Fixture: a submodule path that is not representable as UTF-8. -/
def badUtf8Path : FsPath :=
  { absolute := false, components := ["vendor", "dep"], validUtf8 := false }

/-- Fixture: the root of a parent repository. -/
def parentRoot : FsPath :=
  { absolute := true, components := ["srv", "parent"], validUtf8 := true }

/-- Fixture: a repository environment in which every external call succeeds
and the two revision reads agree. -/
def envFresh : RepoEnv :=
  { isDir := true
    parentIsDir := true
    fetchOrigin := .ok ()
    revParseHead := .ok "abc"
    revParseUpstream := .ok "abc"
    mkParentDir := .ok ()
    cloneResult := .ok ()
    fetchDepth1 := .ok ()
    resetResult := .ok ()
    cleanResult := .ok ()
    logResult := .ok "subject" }

/-- Fixture: like `envFresh` but the local path does not exist. -/
def envAbsent : RepoEnv :=
  { envFresh with isDir := false }

/-- Fixture: like `envFresh` but the two revision reads disagree. -/
def envDrifted : RepoEnv :=
  { envFresh with revParseUpstream := .ok "def" }

/-- Fixture: like `envFresh` but the reset step fails. -/
def envResetFails : RepoEnv :=
  { envFresh with resetResult := .error "reset boom" }

/-- Fixture: a submodule with no explicit name and a derivable remote. -/
def sampleSub : Submodule :=
  { name := none
    remote := "https://example.com/foo/bar.git"
    path := vendorPath }

/-- Fixture: a submodule whose name cannot be derived. -/
def namelessSub : Submodule :=
  { name := none
    remote := "https://example.com/foo/bar"
    path := vendorPath }

/-- Fixture: a submodule environment in which the submodule is unregistered
and every external call succeeds. -/
def subEnvFresh : SubEnv :=
  { modules := .ok none
    config := .ok none
    addResult := .ok ()
    subUpdateResult := .ok ()
    checkoutResult := .ok ()
    root := parentRoot }

/-- Fixture: like `subEnvFresh` but the manifest read fails. -/
def subEnvBadModules : SubEnv :=
  { subEnvFresh with modules := .error "io boom" }

/-- Fixture: a submodule environment whose manifest already carries the
section for the derived name `bar`, as a successful add leaves it. -/
def subEnvRegistered : SubEnv :=
  { subEnvFresh with
    modules := .ok (some "[submodule \"bar\"]\n\tpath = vendor/dep") }

/-- Fixture: like `subEnvRegistered`, with the local config also carrying the
section (registered and initialized). -/
def subEnvInitialized : SubEnv :=
  { subEnvRegistered with
    config := .ok (some "[submodule \"bar\"]\n\turl = x") }


theorem wordRun_append (cs : List Char) : (wordRun cs).1 ++ (wordRun cs).2 = cs := by
  induction cs with
  | nil => rfl
  | cons c cs ih =>
    by_cases h : isWordChar c = true
    · simp [wordRun, h, ih]
    · simp [wordRun, h]

theorem charsStartWith_append_same (l rest pat : List Char) :
    charsStartWith (l ++ rest) (l ++ pat) = charsStartWith rest pat := by
  induction l with
  | nil => rfl
  | cons c l ih => simp [charsStartWith, ih]

theorem charsContain_of_startsWith (pat l : List Char)
    (h : charsStartWith l pat = true) : charsContain pat l = true := by
  cases l with
  | nil =>
    cases pat with
    | nil => rfl
    | cons p ps => simp [charsStartWith] at h
  | cons c cs => simp [charsContain, h]

theorem charsContain_append_left (pat pre l : List Char)
    (h : charsContain pat l = true) : charsContain pat (pre ++ l) = true := by
  induction pre with
  | nil => exact h
  | cons c pre ih => simp [charsContain, ih]

theorem findGitName_none_of_not_contain (cs : List Char)
    (h : charsContain ['.', 'g', 'i', 't'] cs = false) : findGitName cs = none := by
  induction cs with
  | nil => rfl
  | cons c cs ih =>
    rw [charsContain] at h
    rw [Bool.or_eq_false_iff] at h
    by_cases hw : isWordChar c = true
    · have hrest : startsDotGit (wordRun cs).2 = false := by
        by_contra hfalse
        rw [Bool.not_eq_false] at hfalse
        have h1 : charsContain ['.', 'g', 'i', 't'] (wordRun cs).2 = true :=
          charsContain_of_startsWith _ _ hfalse
        have h2 : charsContain ['.', 'g', 'i', 't'] cs = true := by
          rw [← wordRun_append cs]
          exact charsContain_append_left _ _ _ h1
        rw [h.2] at h2
        exact Bool.false_ne_true h2
      simp [findGitName, hw, hrest]
      exact ih h.2
    · simp [findGitName, hw]
      exact ih h.2

theorem findGitName_sound (cs : List Char) (r : String)
    (h : findGitName cs = some r) :
    r.data ≠ [] ∧ charsContain (r.data ++ ['.', 'g', 'i', 't']) cs = true := by
  induction cs with
  | nil => simp [findGitName] at h
  | cons c cs ih =>
    by_cases hw : isWordChar c = true
    · by_cases hd : startsDotGit (wordRun cs).2 = true
      · simp [findGitName, hw, hd] at h
        subst h
        refine ⟨by simp, ?_⟩
        apply charsContain_of_startsWith
        show charsStartWith (c :: cs) ((c :: (wordRun cs).1) ++ ['.', 'g', 'i', 't']) = true
        rw [List.cons_append, charsStartWith]
        simp only [Bool.and_eq_true, decide_eq_true_eq]
        refine ⟨trivial, ?_⟩
        nth_rewrite 1 [← wordRun_append cs]
        rw [charsStartWith_append_same]
        exact hd
      · simp [findGitName, hw, hd] at h
        have := ih h
        exact ⟨this.1, by rw [charsContain]; simp [this.2]⟩
    · simp [findGitName, hw] at h
      have := ih h
      exact ⟨this.1, by rw [charsContain]; simp [this.2]⟩


/-- C1: for every repository whose path exists as a directory (and whose
fetch and two revision reads succeed), `status` returns `Fresh` iff the text
captured from `rev-parse HEAD` is identical to the text captured from
`rev-parse @{u}`, and returns `Stale` otherwise. -/
theorem status_fresh_iff_identical (repo : Repo) (env : RepoEnv) (l r : String)
    (hdir : env.isDir = true)
    (hf : env.fetchOrigin = .ok ())
    (hl : env.revParseHead = .ok l)
    (hr : env.revParseUpstream = .ok r) :
    ((repo.status env).1 = .ok .Fresh ↔ l = r)
    ∧ ((repo.status env).1 = .ok .Stale ↔ l ≠ r) := by
  by_cases h : l = r <;> simp [Repo.status, hdir, hf, hl, hr, h]

/-- C1 witness: with matching revision texts `status` is `Fresh`, with
differing texts it is `Stale`. -/
theorem status_fresh_iff_identical_witness :
    ((Repo.from_path samplePath).status envFresh).1 = .ok .Fresh
    ∧ ((Repo.from_path samplePath).status envDrifted).1 = .ok .Stale := by
  constructor
  · exact (status_fresh_iff_identical (Repo.from_path samplePath) envFresh
      "abc" "abc" rfl rfl rfl rfl).1.mpr rfl
  · exact (status_fresh_iff_identical (Repo.from_path samplePath) envDrifted
      "abc" "def" rfl rfl rfl rfl).2.mpr (by decide)

/-- C2: for every repository whose path does not exist as a directory,
`status` returns `Stale` with an empty call trace: no fetch, no revision
read, no external invocation at all. -/
theorem status_absent_path_stale (repo : Repo) (env : RepoEnv)
    (hdir : env.isDir = false) :
    repo.status env = (.ok .Stale, []) := by
  simp [Repo.status, hdir]

/-- C2 witness at a concrete absent path. -/
theorem status_absent_path_stale_witness :
    (Repo.from_path samplePath).status envAbsent = (.ok .Stale, []) :=
  status_absent_path_stale (Repo.from_path samplePath) envAbsent rfl

/-- C10: `update` panics (instead of returning a tagged error) in the
absent-path branch when the path has no parent component, and in the
present-path branch when the path has no final file-name component; in both
cases no external call has been made. -/
theorem update_panics_on_degenerate_paths (repo : Repo) (url : String)
    (env : RepoEnv) :
    (env.isDir = false → repo.path.parent = none →
      repo.update url env =
        (.panicked "developer error: `Repo` path was at root", []))
    ∧ (env.isDir = true → repo.path.fileName = none →
      repo.update url env =
        (.panicked "developer error: `Repo` path had no file name", [])) := by
  constructor
  · intro hdir hpar
    simp [Repo.update, hdir, hpar]
  · intro hdir hfn
    simp [Repo.update, hdir, hfn]

/-- C10 witness: both panics realized at the filesystem root. -/
theorem update_panics_on_degenerate_paths_witness :
    (Repo.from_path degeneratePath).update "https://example.com/x.git" envAbsent =
      (.panicked "developer error: `Repo` path was at root", [])
    ∧ (Repo.from_path degeneratePath).update "https://example.com/x.git" envFresh =
      (.panicked "developer error: `Repo` path had no file name", []) :=
  ⟨(update_panics_on_degenerate_paths (Repo.from_path degeneratePath)
      "https://example.com/x.git" envAbsent).1 rfl rfl,
   (update_panics_on_degenerate_paths (Repo.from_path degeneratePath)
      "https://example.com/x.git" envFresh).2 rfl rfl⟩


/-- C7: checkout behavior of `init`. -/
theorem init_checkout_exactly_when_pinned (s : Submodule) (env : SubEnv)
    (commit : Option String) :
    (commit = none → ∀ c ∈ (s.init env commit).2, c.isCheckout = false)
    ∧ (∀ cm, commit = some cm → (s.init env commit).1 = .ok () →
        ((s.init env commit).2.countP (fun c => c.isCheckout) = 1
          ∧ (s.init env commit).2.getLast? =
              some (checkoutCall (env.root.join s.path) cm)))
    ∧ (∀ cm e, commit = some cm → env.checkoutResult = .error e →
        checkoutCall (env.root.join s.path) cm ∈ (s.init env commit).2 →
        (s.init env commit).1 = .error ⟨s, .CheckoutFailed cm e⟩) := by
  refine ⟨?_, ?_, ?_⟩
  · intro hnone
    subst hnone
    rcases hn : s.resolveName with _ | n
    · simp [Submodule.init, hn]
    · rcases hidx : s.in_index env n with e | b
      · simp [Submodule.init, hn, hidx, Call.isCheckout]
      · cases b with
        | false =>
          rcases hts : s.path.toStr with _ | ps
          · simp [Submodule.init, hn, hidx, hts, Call.isCheckout]
          · rcases hadd : env.addResult with e1 | u1 <;>
              rcases hsu : env.subUpdateResult with e3 | u3 <;>
              simp [Submodule.init, hn, hidx, hts, hadd, hsu, Call.isCheckout]
        | true =>
          rcases hini : s.initialized env n with e2 | b2
          · simp [Submodule.init, hn, hidx, hini, Call.isCheckout]
          · cases b2 <;> rcases hsu : env.subUpdateResult with e3 | u3 <;>
              simp [Submodule.init, hn, hidx, hini, hsu, Call.isCheckout]
  · intro cm hcm hok
    subst hcm
    rcases hn : s.resolveName with _ | n
    · simp [Submodule.init, hn] at hok
    · rcases hidx : s.in_index env n with e | b
      · simp [Submodule.init, hn, hidx] at hok
      · cases b with
        | false =>
          rcases hts : s.path.toStr with _ | ps
          · simp [Submodule.init, hn, hidx, hts] at hok
          · rcases hadd : env.addResult with e1 | u1 <;>
              rcases hsu : env.subUpdateResult with e3 | u3 <;>
              rcases hco : env.checkoutResult with e4 | u4 <;>
              simp [Submodule.init, hn, hidx, hts, hadd, hsu, hco,
                checkoutCall, Call.isCheckout] at hok ⊢
        | true =>
          rcases hini : s.initialized env n with e2 | b2
          · simp [Submodule.init, hn, hidx, hini] at hok
          · cases b2 <;> rcases hsu : env.subUpdateResult with e3 | u3 <;>
              rcases hco : env.checkoutResult with e4 | u4 <;>
              simp [Submodule.init, hn, hidx, hini, hsu, hco,
                checkoutCall, Call.isCheckout] at hok ⊢
  · intro cm e hcm hco hmem
    subst hcm
    rcases hn : s.resolveName with _ | n
    · simp [Submodule.init, hn] at hmem
    · rcases hidx : s.in_index env n with e1 | b
      · simp [Submodule.init, hn, hidx, checkoutCall] at hmem
      · cases b with
        | false =>
          rcases hts : s.path.toStr with _ | ps
          · simp [Submodule.init, hn, hidx, hts, checkoutCall] at hmem
          · rcases hadd : env.addResult with e1 | u1 <;>
              rcases hsu : env.subUpdateResult with e3 | u3 <;>
              simp [Submodule.init, hn, hidx, hts, hadd, hsu, hco, checkoutCall] at hmem ⊢
        | true =>
          rcases hini : s.initialized env n with e2 | b2
          · simp [Submodule.init, hn, hidx, hini, checkoutCall] at hmem
          · cases b2 <;> rcases hsu : env.subUpdateResult with e3 | u3 <;>
              simp [Submodule.init, hn, hidx, hini, hsu, hco, checkoutCall] at hmem ⊢


/-- C4: registration path of `init`. -/
theorem init_registration_path (s : Submodule) (env : SubEnv)
    (commit : Option String) :
    (s.resolveName = none →
      s.init env commit = (.error ⟨s, .NameMissing⟩, []))
    ∧ (∀ n, s.resolveName = some n → s.in_index env n = .ok false →
        ((s.path.toStr = none →
            s.init env commit = (.error ⟨s, .PathInvalidUtf8⟩, [Call.readModules]))
          ∧ (∀ ps e, s.path.toStr = some ps → env.addResult = .error e →
              s.init env commit =
                (.error ⟨s, .AddFailed e⟩,
                  [Call.readModules, addCall env.root n s.remote ps]))
          ∧ (∀ ps, s.path.toStr = some ps → env.addResult = .ok () →
              Call.readConfig ∉ (s.init env commit).2
                ∧ subUpdateCall env.root ∈ (s.init env commit).2)))
    ∧ (∀ n, s.resolveName = some n → s.in_index env n = .ok true →
        ((s.initialized env n = .ok true →
            subUpdateCall env.root ∉ (s.init env commit).2)
          ∧ (s.initialized env n = .ok false →
              subUpdateCall env.root ∈ (s.init env commit).2))) := by
  refine ⟨?_, ?_, ?_⟩
  · intro h
    simp [Submodule.init, h]
  · intro n hn hidx
    refine ⟨?_, ?_, ?_⟩
    · intro hts
      simp [Submodule.init, hn, hidx, hts]
    · intro ps e hts hadd
      simp [Submodule.init, hn, hidx, hts, hadd, addCall]
    · intro ps hts hadd
      constructor
      · rcases hsu : env.subUpdateResult with e3 | u3 <;>
          rcases commit with _ | cm <;>
          rcases hco : env.checkoutResult with e4 | u4 <;>
          simp [Submodule.init, hn, hidx, hts, hadd, hsu, hco]
      · rcases hsu : env.subUpdateResult with e3 | u3 <;>
          rcases commit with _ | cm <;>
          rcases hco : env.checkoutResult with e4 | u4 <;>
          simp [Submodule.init, hn, hidx, hts, hadd, hsu, hco, subUpdateCall]
  · intro n hn hidx
    constructor
    · intro hini
      rcases commit with _ | cm <;>
        rcases hco : env.checkoutResult with e4 | u4 <;>
        simp [Submodule.init, hn, hidx, hini, hco, subUpdateCall, checkoutCall]
    · intro hini
      rcases hsu : env.subUpdateResult with e3 | u3 <;>
        rcases commit with _ | cm <;>
        rcases hco : env.checkoutResult with e4 | u4 <;>
        simp [Submodule.init, hn, hidx, hini, hsu, hco, subUpdateCall]

/-- C5: a second `init` on a now-registered submodule does not re-add. -/
theorem init_second_call_skips_registration (s : Submodule) (env : SubEnv)
    (commit : Option String) (n m : String)
    (hn : s.resolveName = some n)
    (hm : env.modules = .ok (some m))
    (hc : strContains m (sectionHeader n) = true) :
    ((s.init env commit).2.take 2 = [Call.readModules, Call.readConfig])
    ∧ (∀ c ∈ (s.init env commit).2, c.isSubmoduleAdd = false) := by
  have hidx : s.in_index env n = .ok true := by
    simp [Submodule.in_index, hm, hc]
  rcases hini : s.initialized env n with e2 | b2
  · simp [Submodule.init, hn, hidx, hini, Call.isSubmoduleAdd]
  · cases b2 <;> rcases commit with _ | cm <;>
      rcases hsu : env.subUpdateResult with e3 | u3 <;>
      rcases hco : env.checkoutResult with e4 | u4 <;>
      simp [Submodule.init, hn, hidx, hini, hsu, hco, Call.isSubmoduleAdd]


/-- C3: the two branches of `update`, their strict order, and their
halt-at-first-failure behavior. -/
theorem update_branch_sequence (repo : Repo) (url : String) (env : RepoEnv) :
    (∀ par, env.isDir = false → repo.path.parent = some par →
      ((∀ e, env.parentIsDir = false → env.mkParentDir = .error e →
          repo.update url env =
            (.result (.error (.ParentDirCreationFailed par e)),
              [Call.createDirAll par]))
        ∧ (∀ e, env.parentIsDir = false → env.mkParentDir = .ok () →
            env.cloneResult = .error e →
            repo.update url env =
              (.result (.error (.CloneFailed e)),
                [Call.createDirAll par, cloneCall par url repo.path]))
        ∧ (env.parentIsDir = false → env.mkParentDir = .ok () →
            env.cloneResult = .ok () →
            repo.update url env =
              (.result (.ok ()),
                [Call.createDirAll par, cloneCall par url repo.path]))
        ∧ (∀ e, env.parentIsDir = true → env.cloneResult = .error e →
            repo.update url env =
              (.result (.error (.CloneFailed e)), [cloneCall par url repo.path]))
        ∧ (env.parentIsDir = true → env.cloneResult = .ok () →
            repo.update url env =
              (.result (.ok ()), [cloneCall par url repo.path]))))
    ∧ (∀ fn, env.isDir = true → repo.path.fileName = some fn →
      ((∀ e, env.fetchDepth1 = .error e →
          repo.update url env =
            (.result (.error (.FetchFailed e)), [fetchCall repo.path]))
        ∧ (∀ e, env.fetchDepth1 = .ok () → env.resetResult = .error e →
            repo.update url env =
              (.result (.error (.ResetFailed e)),
                [fetchCall repo.path, resetCall repo.path]))
        ∧ (∀ e, env.fetchDepth1 = .ok () → env.resetResult = .ok () →
            env.cleanResult = .error e →
            repo.update url env =
              (.result (.error (.CleanFailed e)),
                [fetchCall repo.path, resetCall repo.path, cleanCall repo.path]))
        ∧ (env.fetchDepth1 = .ok () → env.resetResult = .ok () →
            env.cleanResult = .ok () →
            repo.update url env =
              (.result (.ok ()),
                [fetchCall repo.path, resetCall repo.path, cleanCall repo.path])))) := by
  constructor
  · intro par hdir hpar
    refine ⟨?_, ?_, ?_, ?_, ?_⟩ <;> intros <;>
      simp [Repo.update, cloneCall, hdir, hpar, *]
  · intro fn hdir hfn
    refine ⟨?_, ?_, ?_, ?_⟩ <;> intros <;>
      simp [Repo.update, fetchCall, resetCall, cleanCall, hdir, hfn, *]

/-- C8: any clean invocation `update` performs carries exactly the
`-dfx --exclude /target` arguments, so the modelled clean semantics spare the
top-level `target` directory while removing every other untracked entry. -/
theorem update_clean_preserves_target (repo : Repo) (url : String)
    (env : RepoEnv) (cwd : FsPath) (args : List String)
    (hmem : Call.run cwd args ∈ (repo.update url env).2)
    (hclean : args.head? = some "clean") :
    args = ["clean", "-dfx", "--exclude", "/target"]
    ∧ cleanRemovesRootEntry args "target" = false
    ∧ (∀ entry, entry ≠ "target" → cleanRemovesRootEntry args entry = true) := by
  have hargs : args = ["clean", "-dfx", "--exclude", "/target"] := by
    cases hd : env.isDir with
    | false =>
      cases hp : repo.path.parent with
      | none => simp [Repo.update, hd, hp] at hmem
      | some par =>
        cases hpd : env.parentIsDir with
        | false =>
          cases hmk : env.mkParentDir with
          | error e => simp [Repo.update, hd, hp, hpd, hmk] at hmem
          | ok u =>
            rcases hcl : env.cloneResult with e | u2 <;>
              simp [Repo.update, hd, hp, hpd, hmk, hcl] at hmem <;>
              simp [hmem.2] at hclean
        | true =>
          rcases hcl : env.cloneResult with e | u2 <;>
            simp [Repo.update, hd, hp, hpd, hcl] at hmem <;>
            simp [hmem.2] at hclean
    | true =>
      cases hfn : repo.path.fileName with
      | none => simp [Repo.update, hd, hfn] at hmem
      | some fn =>
        cases hf : env.fetchDepth1 with
        | error e =>
          simp [Repo.update, hd, hfn, hf] at hmem
          simp [hmem.2] at hclean
        | ok u =>
          cases hr : env.resetResult with
          | error e =>
            simp [Repo.update, hd, hfn, hf, hr] at hmem
            rcases hmem with ⟨h1, h2⟩ | ⟨h1, h2⟩ <;> simp [h2] at hclean
          | ok u2 =>
            rcases hc : env.cleanResult with e | u3 <;>
              simp [Repo.update, hd, hfn, hf, hr, hc] at hmem <;>
              rcases hmem with ⟨h1, h2⟩ | ⟨h1, h2⟩ | ⟨h1, h2⟩ <;>
              first
                | exact h2
                | (simp [h2] at hclean)
  subst hargs
  refine ⟨rfl, by decide, ?_⟩
  intro entry hne
  simp [cleanRemovesRootEntry, collectExcludes, List.contains]
  intro hcontra
  apply hne
  have hdata := congrArg String.data hcontra
  rw [String.data_append] at hdata
  have hslash : "/".data = ['/'] := rfl
  rw [hslash] at hdata
  have htarget : "/target".data = '/' :: "target".data := rfl
  rw [htarget] at hdata
  have : entry.data = "target".data := by
    simpa using hdata
  exact String.ext this


/-- C6 counterexample: the code derives the name from the first word-run
followed by `.git` anywhere in the remote, not from the final path segment
before a trailing `.git` suffix.  On `"my-repo.git"` the code derives
`"repo"` where the claim's rule gives `"my-repo"`; on
`"https://x.github.com/foo"` (no trailing `.git` suffix) the code still
derives `"x"` where the claim says no name is derivable. -/
theorem name_derivation_counterexample :
    (Submodule.with_remote_and_path "my-repo.git" vendorPath).resolveName =
      some "repo"
    ∧ specTrailingSegmentName "my-repo.git" = some "my-repo"
    ∧ (Submodule.with_remote_and_path "https://x.github.com/foo"
        vendorPath).resolveName = some "x"
    ∧ specTrailingSegmentName "https://x.github.com/foo" = none := by
  refine ⟨?_, ?_, ?_, ?_⟩ <;> decide

/-- C6 amended: the derived name is the leftmost run of word characters
immediately followed by the literal `.git` anywhere in the remote (so the
suffix need not be trailing and the run need not be a whole path segment);
the claim's worked example still derives `"bar"`, a remote containing no
`.git` at all derives no name, and `init` without a resolvable name fails
with the name-missing error before any external call. -/
theorem name_derivation_amended (s : Submodule) (hname : s.name = none) :
    (s.remote = "https://example.com/foo/bar.git" → s.resolveName = some "bar")
    ∧ (s.remote = "https://example.com/foo/bar" → s.resolveName = none)
    ∧ (strContains s.remote ".git" = false → s.resolveName = none)
    ∧ (∀ r, s.resolveName = some r →
        r ≠ "" ∧ strContains s.remote (r ++ ".git") = true)
    ∧ (s.resolveName = none → ∀ env commit,
        s.init env commit = (.error ⟨s, .NameMissing⟩, [])) := by
  refine ⟨?_, ?_, ?_, ?_, ?_⟩
  · intro hr
    simp [Submodule.resolveName, hname, hr]
    decide
  · intro hr
    simp [Submodule.resolveName, hname, hr]
    decide
  · intro hnc
    simp [Submodule.resolveName, hname]
    exact findGitName_none_of_not_contain _ hnc
  · intro r hr
    simp [Submodule.resolveName, hname] at hr
    have h := findGitName_sound _ _ hr
    refine ⟨?_, ?_⟩
    · intro hempty
      exact h.1 (by simp [hempty])
    · have hdata : (r ++ ".git").data = r.data ++ ['.', 'g', 'i', 't'] := by
        rw [String.data_append]
      show charsContain (r ++ ".git").data s.remote.data = true
      rw [hdata]
      exact h.2
  · intro hnone env commit
    simp [Submodule.init, hnone]


/-- C9: error-taxonomy discipline.  Every submodule-level error carries the
full submodule descriptor; the fifteen failure stages are all realized by
some error variant, repository stages and submodule stages never collide;
`status` reports exactly the first failing step under its distinct variant,
and the two submodule state queries fail under their own distinct
variants. -/
theorem error_taxonomy (s : Submodule) (env : SubEnv) (commit : Option String) :
    (∀ e, (s.init env commit).1 = .error e → e.submodule = s)
    ∧ (∀ st : Stage,
        (∃ er : Repo.Error, er.stage = st)
          ∨ (∃ src : Submodule.Source, src.stage = st))
    ∧ (∀ (er : Repo.Error) (src : Submodule.Source), er.stage ≠ src.stage)
    ∧ (∀ (repo : Repo) (renv : RepoEnv), renv.isDir = true →
        ((∀ e, (repo.status renv).1 = .error (.FetchFailed e) ↔
            renv.fetchOrigin = .error e)
          ∧ (∀ e, (repo.status renv).1 = .error (.RevParseLocalFailed e) ↔
              renv.fetchOrigin = .ok () ∧ renv.revParseHead = .error e)
          ∧ (∀ e, (repo.status renv).1 = .error (.RevParseRemoteFailed e) ↔
              renv.fetchOrigin = .ok () ∧ (∃ l, renv.revParseHead = .ok l)
                ∧ renv.revParseUpstream = .error e)))
    ∧ (∀ n e, s.resolveName = some n → env.modules = .error e →
        (s.init env commit).1 = .error ⟨s, .IndexCheckFailed e⟩)
    ∧ (∀ n e, s.resolveName = some n → s.in_index env n = .ok true →
        env.config = .error e →
        (s.init env commit).1 = .error ⟨s, .InitCheckFailed e⟩) := by
  refine ⟨?_, ?_, ?_, ?_, ?_, ?_⟩
  · intro e' he
    rcases hn : s.resolveName with _ | n
    · simp [Submodule.init, hn] at he
      first | simp [he] | simp [← he]
    · rcases hidx : s.in_index env n with e1 | b
      · simp [Submodule.init, hn, hidx] at he
        first | simp [he] | simp [← he]
      · cases b with
        | false =>
          rcases hts : s.path.toStr with _ | ps
          · simp [Submodule.init, hn, hidx, hts] at he
            first | simp [he] | simp [← he]
          · rcases hadd : env.addResult with e2 | u1 <;>
              rcases hsu : env.subUpdateResult with e3 | u3 <;>
              rcases commit with _ | cm <;>
              rcases hco : env.checkoutResult with e4 | u4 <;>
              simp [Submodule.init, hn, hidx, hts, hadd, hsu, hco] at he <;>
              first | simp [he] | simp [← he]
        | true =>
          rcases hini : s.initialized env n with e2 | b2
          · simp [Submodule.init, hn, hidx, hini] at he
            first | simp [he] | simp [← he]
          · cases b2 <;> rcases hsu : env.subUpdateResult with e3 | u3 <;>
              rcases commit with _ | cm <;>
              rcases hco : env.checkoutResult with e4 | u4 <;>
              simp [Submodule.init, hn, hidx, hini, hsu, hco] at he <;>
              first | simp [he] | simp [← he]
  · intro st
    cases st with
    | fetch => exact Or.inl ⟨.FetchFailed "x", rfl⟩
    | localRev => exact Or.inl ⟨.RevParseLocalFailed "x", rfl⟩
    | upstreamRev => exact Or.inl ⟨.RevParseRemoteFailed "x", rfl⟩
    | log => exact Or.inl ⟨.LogFailed "x", rfl⟩
    | parentDir => exact Or.inl ⟨.ParentDirCreationFailed degeneratePath "x", rfl⟩
    | clone => exact Or.inl ⟨.CloneFailed "x", rfl⟩
    | reset => exact Or.inl ⟨.ResetFailed "x", rfl⟩
    | clean => exact Or.inl ⟨.CleanFailed "x", rfl⟩
    | nameMissing => exact Or.inr ⟨.NameMissing, rfl⟩
    | manifestQuery => exact Or.inr ⟨.IndexCheckFailed "x", rfl⟩
    | configQuery => exact Or.inr ⟨.InitCheckFailed "x", rfl⟩
    | pathEncoding => exact Or.inr ⟨.PathInvalidUtf8, rfl⟩
    | add => exact Or.inr ⟨.AddFailed "x", rfl⟩
    | recursiveInit => exact Or.inr ⟨.InitFailed "x", rfl⟩
    | checkout => exact Or.inr ⟨.CheckoutFailed "c" "x", rfl⟩
  · intro er src
    cases er <;> cases src <;>
      simp [Repo.Error.stage, Submodule.Source.stage]
  · intro repo renv hdir
    refine ⟨?_, ?_, ?_⟩ <;> intro e1 <;>
      rcases hf : renv.fetchOrigin with ef | ⟨⟩ <;>
      rcases hh : renv.revParseHead with eh | lh <;>
      rcases hu : renv.revParseUpstream with eu | lu <;>
      simp [Repo.status, hdir, hf, hh, hu]
  · intro n e1 hn hm
    have hidx : s.in_index env n = .error e1 := by
      simp [Submodule.in_index, hm]
    simp [Submodule.init, hn, hidx]
  · intro n e1 hn hidx hcfg
    have hini : s.initialized env n = .error e1 := by
      simp [Submodule.initialized, hcfg]
    simp [Submodule.init, hn, hidx, hini]


/-- C3 witness: the present-path branch at a concrete repository with every
step succeeding runs exactly fetch, reset, clean in order. -/
theorem update_branch_sequence_witness :
    (Repo.from_path samplePath).update "https://example.com/x.git" envFresh =
      (.result (.ok ()),
        [fetchCall samplePath, resetCall samplePath, cleanCall samplePath]) :=
  ((update_branch_sequence (Repo.from_path samplePath)
      "https://example.com/x.git" envFresh).2 "repo" rfl (by decide)).2.2.2
    rfl rfl rfl

/-- C4 witness: a fresh add at a concrete unregistered submodule re-queries
nothing and invokes the recursive initialization. -/
theorem init_registration_path_witness :
    Call.readConfig ∉ (sampleSub.init subEnvFresh none).2
    ∧ subUpdateCall parentRoot ∈ (sampleSub.init subEnvFresh none).2 :=
  ((init_registration_path sampleSub subEnvFresh none).2.1 "bar"
      (by decide) rfl).2.2 "vendor/dep" (by decide) rfl

/-- C5 witness: at a concrete environment whose manifest carries the section
a successful add leaves, `init` reads the manifest then the config and never
invokes `submodule add`. -/
theorem init_second_call_skips_registration_witness :
    ((sampleSub.init subEnvRegistered none).2.take 2 =
        [Call.readModules, Call.readConfig])
    ∧ (∀ c ∈ (sampleSub.init subEnvRegistered none).2,
        c.isSubmoduleAdd = false) :=
  init_second_call_skips_registration sampleSub subEnvRegistered none "bar"
    "[submodule \"bar\"]\n\tpath = vendor/dep" (by decide) rfl (by decide)

/-- C6 witness: the amended derivation rule at the spec's worked example and
at a remote with no `.git` occurrence. -/
theorem name_derivation_amended_witness :
    sampleSub.resolveName = some "bar" ∧ namelessSub.resolveName = none :=
  ⟨(name_derivation_amended sampleSub rfl).1 rfl,
   (name_derivation_amended namelessSub rfl).2.1 rfl⟩

/-- C7 witness: a pinned `init` at a concrete environment performs exactly
one checkout, as its final call, inside the joined working directory; an
unpinned `init` performs none. -/
theorem init_checkout_exactly_when_pinned_witness :
    ((sampleSub.init subEnvFresh (some "deadbeef")).2.countP
        (fun c => c.isCheckout) = 1
      ∧ (sampleSub.init subEnvFresh (some "deadbeef")).2.getLast? =
          some (checkoutCall (parentRoot.join vendorPath) "deadbeef"))
    ∧ (∀ c ∈ (sampleSub.init subEnvFresh none).2, c.isCheckout = false) :=
  ⟨(init_checkout_exactly_when_pinned sampleSub subEnvFresh
      (some "deadbeef")).2.1 "deadbeef" rfl rfl,
   (init_checkout_exactly_when_pinned sampleSub subEnvFresh none).1 rfl⟩

/-- C8 witness: the clean call of a concrete successful `update` spares the
top-level `target` entry and removes another untracked entry. -/
theorem update_clean_preserves_target_witness :
    cleanRemovesRootEntry ["clean", "-dfx", "--exclude", "/target"]
        "target" = false
    ∧ cleanRemovesRootEntry ["clean", "-dfx", "--exclude", "/target"]
        "scratch" = true := by
  have h := update_clean_preserves_target (Repo.from_path samplePath)
    "https://example.com/x.git" envFresh samplePath
    ["clean", "-dfx", "--exclude", "/target"] (by decide) (by decide)
  exact ⟨h.2.1, h.2.2 "scratch" (by decide)⟩

/-- C9 witness: a concrete manifest-read failure surfaces as the distinct
manifest-query variant carrying the full descriptor. -/
theorem error_taxonomy_witness :
    (sampleSub.init subEnvBadModules none).1 =
      .error ⟨sampleSub, .IndexCheckFailed "io boom"⟩ :=
  (error_taxonomy sampleSub subEnvBadModules none).2.2.2.2.1 "bar" "io boom"
    (by decide) rfl

end Hit
